import Mathlib

/-!
Verification development for the `hydra` HTTP login dictionary-attack tool
(file `hydra.go`). Go strings are byte sequences; we embed them as `List Nat`
(each element a byte value). Pure helpers of the program are embedded as
executable Lean functions; the concurrent worker loop and the first-match
shutdown path are embedded as explicit transition relations on state records.
-/

namespace Hydra

/-- Byte-string view of a Lean string literal, used to write concrete inputs
and the literal constants of the program (placeholders, header names,
diagnostic messages). -/
def strBytes (s : String) : List Nat :=
  s.toList.map Char.toNat

/-- `type Job struct { user, pass string }`: one candidate login/password
pair. -/
structure Job where
  user : List Nat
  pass : List Nat
deriving DecidableEq, Repr

/-! ## Success evaluator (worker, classification of a response body)

From `worker`:
```
var failed bool
if rCondition != nil {
    failed = rCondition.Match(body)
} else {
    failed = bytes.Contains(body, condition)
}
if *invertedCondition { failed = !failed }
if failed { continue }
m.Lock(); fmt.Fprintf(out, "%s:%s\n", job.user, job.pass); m.Unlock()
```
-/

/-- The success/failure condition: either a literal byte sequence
(`condition []byte`, tested with `bytes.Contains`) or a compiled regular
expression (`rCondition`), embedded by its match function on the body. -/
inductive Cond where
  | literal (c : List Nat)
  | pattern (matchFn : List Nat → Bool)

/-- `bytes.Contains(hay, needle)`: whether `needle` occurs as a contiguous
subsequence of `hay`. -/
def containsSeq (needle : List Nat) : List Nat → Bool
  | [] => needle.isEmpty
  | c :: rest => needle.isPrefixOf (c :: rest) || containsSeq needle rest

/-- `matched` as the worker computes it: `rCondition.Match(body)` in pattern
mode, `bytes.Contains(body, condition)` in literal mode. -/
def matchedOf : Cond → List Nat → Bool
  | .literal c, body => containsSeq c body
  | .pattern f, body => f body

/-- The per-body tail of the worker: compute `failed`, invert it when the
`-i` flag is set, and return the line written to the result sink (`some`)
exactly when `failed` ends up `false`; `none` means the worker `continue`s
without writing. -/
def classifyWrite (cond : Cond) (inverted : Bool) (job : Job) (body : List Nat) :
    Option (List Nat) :=
  let failed := matchedOf cond body
  let failed := if inverted then !failed else failed
  if failed then none
  else some (job.user ++ [58] ++ job.pass ++ [10])

/-! ## Splitting at the first colon

`strings.SplitN(s, ":", 2)` returns `[s]` when `s` has no colon, and
`[before, after]` otherwise, split at the first colon. We embed it as a pair
of the part before the first separator and, when a separator exists, the
remainder after it. -/

/-- Split a byte string at the first occurrence of `sep`: the bytes before
it, and `some` remainder after it (`none` when `sep` does not occur). -/
def splitFirst (sep : Nat) : List Nat → List Nat × Option (List Nat)
  | [] => ([], none)
  | c :: rest =>
    if c = sep then ([], some rest)
    else
      let p := splitFirst sep rest
      (c :: p.1, p.2)

/-! ## Combined "login:pass" file parsing (main, `-C` path)

```
lp := strings.SplitN(scanner.Text(), ":", 2)
if len(lp) < 2 { continue }
jobs <- Job{lp[0], lp[1]}
```
-/

/-- One line of the combined file: `none` (skipped, no pair, no error) when
the line has no colon, otherwise the pair split at the first colon. -/
def parseCombinedLine (line : List Nat) : Option Job :=
  match splitFirst 58 line with
  | (_, none) => none
  | (u, some p) => some { user := u, pass := p }

/-- All pairs pushed into the Attempt Queue from the combined file, in line
order. -/
def combinedPairs (lines : List (List Nat)) : List Job :=
  lines.filterMap parseCombinedLine

/-! ## Header flag parsing (`Headers.Set`, the `-h`/`-H` flag.Value)

```
func (hs *Headers) Set(val string) error {
    if !strings.Contains(val, ":") {
        return errors.New("invalid header: " + val)
    }
    kv := strings.SplitN(val, ":", 2)
    h := Header{ key: kv[0], value: strings.TrimLeft(kv[1], " ") }
    *hs = append(*hs, h)
    return nil
}
```
-/

/-- `type Header struct { key, value string }`. -/
structure Header where
  key : List Nat
  value : List Nat
deriving DecidableEq, Repr

/-- `strings.TrimLeft(s, " ")`: drop leading space bytes. -/
def trimLeftSpaces (s : List Nat) : List Nat :=
  s.dropWhile (fun c => c == 32)

/-- `Headers.Set`: reject a flag value with no colon, otherwise split at the
first colon, left-trim spaces of the value part, and append the header. -/
def headersSetFlag (hs : List Header) (val : List Nat) :
    Except (List Nat) (List Header) :=
  if val.contains 58 then
    match splitFirst 58 val with
    | (k, some v) => .ok (hs ++ [{ key := k, value := trimLeftSpaces v }])
    | (k, none) => .ok (hs ++ [{ key := k, value := [] }])
  else
    .error (strBytes "invalid header: " ++ val)

/-! ## Matrix-mode pair production (main, non-`-C` path)

```
for _, pass := range passwords {
    for _, user := range logins {
        jobs <- Job{user, pass}
    }
}
```
-/

/-- The pairs pushed into the Attempt Queue in matrix mode, in push order:
the password varies in the outer loop, the login in the inner loop. -/
def matrixPairs (logins passwords : List (List Nat)) : List Job :=
  passwords.flatMap (fun pass => logins.map (fun user => { user := user, pass := pass }))

/-! ## Transient-error handling in the worker

```
resp, err := client.Do(req)
if err != nil {
    log.Print(err)
    select { case retry <- job: default: }
    continue
}
...
body, err := ioutil.ReadAll(resp.Body)
resp.Body.Close()
if err != nil {
    log.Print(err)
    select { case retry <- job: default: }
    continue
}
```
-/

/-- The non-blocking send `select { case retry <- job: default: }` on the
buffered retry channel of capacity `cap`: enqueue when the buffer has room,
silently drop the pair otherwise. -/
def tryEnqueueRetry (cap : Nat) (buf : List Job) (j : Job) : List Job :=
  if buf.length < cap then buf ++ [j] else buf

/-- Outcome of one HTTP attempt, as the worker observes it: `client.Do`
failed, reading the body failed, or a body was obtained. -/
inductive AttemptResult where
  | connError
  | readError
  | body (b : List Nat)
deriving Repr

/-- Observable effect of the worker handling one attempt outcome. -/
structure StepOut where
  retryBuf : List Job
  written : Option (List Nat)
  logged : Bool
  exits : Bool
deriving Repr

/-- The worker body after `client.Do`, for one pair: on a connection or
body-read error, log, best-effort re-enqueue into the retry buffer, write
nothing, and `continue`; on a body, classify it and write the success line
when classification says so, invoking `safeExit` only in first-match-only
mode after a write. -/
def handleResult (cap : Nat) (firstOnly : Bool) (cond : Cond) (inverted : Bool)
    (buf : List Job) (j : Job) (r : AttemptResult) : StepOut :=
  match r with
  | .connError =>
    { retryBuf := tryEnqueueRetry cap buf j, written := none, logged := true, exits := false }
  | .readError =>
    { retryBuf := tryEnqueueRetry cap buf j, written := none, logged := true, exits := false }
  | .body b =>
    let w := classifyWrite cond inverted j b
    { retryBuf := buf, written := w, logged := false, exits := firstOnly && w.isSome }

/-! ## Request-body rendering (worker)

```
postData := strings.Replace(data, "^USER^", url.QueryEscape(job.user), -1)
postData = strings.Replace(postData, "^PASS^", url.QueryEscape(job.pass), -1)
```
-/

/-- `strings.Replace(s, old, new, -1)`: replace every non-overlapping
occurrence of `old` in `s`, scanning left to right. The program only uses
the non-empty patterns `^USER^` and `^PASS^`; the Go special case for an
empty `old` (insertion between characters) is outside the modelled inputs,
and the guard makes an empty pattern a no-op here. -/
def replaceAll (old new : List Nat) : List Nat → List Nat
  | [] => []
  | c :: rest =>
    if old.isPrefixOf (c :: rest) && !old.isEmpty then
      new ++ replaceAll old new (rest.drop (old.length - 1))
    else
      c :: replaceAll old new rest
termination_by s => s.length
decreasing_by
  · simp only [List.length_cons, List.length_drop]; omega
  · simp only [List.length_cons]; omega

/-- Prepend a byte to the first group of a split result (used to state the
`strings.Split`-style reading of `replaceAll`). -/
def consHead (c : Nat) : List (List Nat) → List (List Nat)
  | [] => [[c]]
  | g :: gs => (c :: g) :: gs

/-- `strings.Split(s, old)` (equivalently `SplitN` with count `-1`) for a
non-empty separator: the maximal groups of `s` between the non-overlapping
left-to-right occurrences of `old`. -/
def splitAll (old : List Nat) : List Nat → List (List Nat)
  | [] => [[]]
  | c :: rest =>
    if old.isPrefixOf (c :: rest) && !old.isEmpty then
      [] :: splitAll old (rest.drop (old.length - 1))
    else
      consHead c (splitAll old rest)
termination_by s => s.length
decreasing_by
  · simp only [List.length_cons, List.length_drop]; omega
  · simp only [List.length_cons]; omega

/-- `shouldEscape(c, encodeQueryComponent)` from Go `net/url`: every byte is
escaped except ASCII letters, digits, and `-`, `_`, `.`, `~`. (The space
byte is in this set too; `QueryEscape` turns it into `+` before consulting
the percent-encoding path.) -/
def shouldEscapeQuery (c : Nat) : Bool :=
  !(decide ((65 ≤ c ∧ c ≤ 90) ∨ (97 ≤ c ∧ c ≤ 122) ∨ (48 ≤ c ∧ c ≤ 57)
      ∨ c = 45 ∨ c = 95 ∨ c = 46 ∨ c = 126))

/-- The upper-case hexadecimal digit for a value below 16, as a byte. -/
def upperHexDigit (n : Nat) : Nat :=
  if n < 10 then 48 + n else 55 + n

/-- `url.QueryEscape`: space becomes `+`, bytes outside the unreserved set
become `%XX` with upper-case hex digits, the rest pass through. -/
def queryEscape (s : List Nat) : List Nat :=
  s.flatMap fun c =>
    if c = 32 then [43]
    else if shouldEscapeQuery c then [37, upperHexDigit (c / 16), upperHexDigit (c % 16)]
    else [c]

/-- The `^USER^` placeholder, as bytes. -/
def userPlaceholder : List Nat := strBytes "^USER^"

/-- The `^PASS^` placeholder, as bytes. -/
def passPlaceholder : List Nat := strBytes "^PASS^"

/-- The body the worker posts: the template with `^USER^` replaced by the
query-escaped login, then `^PASS^` replaced by the query-escaped password. -/
def renderPostData (data user pass : List Nat) : List Nat :=
  replaceAll passPlaceholder (queryEscape pass)
    (replaceAll userPlaceholder (queryEscape user) data)

/-! ## Outgoing request headers (worker)

```
req.Header.Add("Host", host)
req.Header.Add("User-Agent", defaultUserAgent)
req.Header.Add("Content-Length", strconv.Itoa(len(postData)))
req.Header.Add("Content-Type", defaultContentType)
req.Header.Add("Connection", "Keep-Alive")
for _, h := range headersAdd { req.Header.Add(h.key, h.value) }
for _, h := range headersReplace { req.Header.Set(h.key, h.value) }
```
`http.Header` is a map from canonical MIME header keys to value lists;
`Add` appends to the value list of the canonical key, `Set` replaces the
whole value list with a singleton. -/

/-- `validHeaderFieldByte` from Go `net/textproto`: token bytes — digits,
letters, and the specials of the token character set. -/
def validHeaderFieldByte (c : Nat) : Bool :=
  decide ((48 ≤ c ∧ c ≤ 57) ∨ (97 ≤ c ∧ c ≤ 122) ∨ (65 ≤ c ∧ c ≤ 90))
    || [33, 35, 36, 37, 38, 39, 42, 43, 45, 46, 94, 95, 96, 124, 126].contains c

/-- The canonicalizing loop of `canonicalMIMEHeaderKey`: upper-case the
letter at the start and after each hyphen, lower-case every other letter. -/
def canonicalKeyCore : Bool → List Nat → List Nat
  | _, [] => []
  | upper, c :: rest =>
    let c2 :=
      if upper && decide (97 ≤ c ∧ c ≤ 122) then c - 32
      else if !upper && decide (65 ≤ c ∧ c ≤ 90) then c + 32
      else c
    c2 :: canonicalKeyCore (c2 == 45) rest

/-- `textproto.CanonicalMIMEHeaderKey`: keys with a non-token byte are left
unchanged, the rest are canonicalized. -/
def canonicalMIMEHeaderKey (s : List Nat) : List Nat :=
  if s.all validHeaderFieldByte then canonicalKeyCore true s else s

/-- The `http.Header` map, embedded as an association list from (canonical)
keys to value lists; the program builds every map through `headerAdd` and
`headerSet` below, which keep keys unique. -/
abbrev HeaderMap := List (List Nat × List (List Nat))

/-- Value list of a key (Go map lookup; `[]` when absent). -/
def headerGet (k : List Nat) : HeaderMap → List (List Nat)
  | [] => []
  | e :: rest => if e.1 = k then e.2 else headerGet k rest

/-- Append a value to the list of an already-canonical key, creating the
entry when absent (`textproto.MIMEHeader.Add` after canonicalization). -/
def headerAddRaw (k v : List Nat) : HeaderMap → HeaderMap
  | [] => [(k, [v])]
  | e :: rest => if e.1 = k then (e.1, e.2 ++ [v]) :: rest else e :: headerAddRaw k v rest

/-- Replace the value list of an already-canonical key by a singleton,
creating the entry when absent (`textproto.MIMEHeader.Set`). -/
def headerSetRaw (k v : List Nat) : HeaderMap → HeaderMap
  | [] => [(k, [v])]
  | e :: rest => if e.1 = k then (e.1, [v]) :: rest else e :: headerSetRaw k v rest

/-- `http.Header.Add`: canonicalize the key, then append. -/
def headerAdd (h : HeaderMap) (k v : List Nat) : HeaderMap :=
  headerAddRaw (canonicalMIMEHeaderKey k) v h

/-- `http.Header.Set`: canonicalize the key, then replace. -/
def headerSet (h : HeaderMap) (k v : List Nat) : HeaderMap :=
  headerSetRaw (canonicalMIMEHeaderKey k) v h

/-- `defaultUserAgent = "Mozilla/5.0 (Hydra)"`. -/
def defaultUserAgent : List Nat := strBytes "Mozilla/5.0 (Hydra)"

/-- `defaultContentType = "application/x-www-form-urlencoded"`. -/
def defaultContentType : List Nat := strBytes "application/x-www-form-urlencoded"

/-- `strconv.Itoa` of a natural number, as bytes. -/
def itoa (n : Nat) : List Nat :=
  (Nat.toDigits 10 n).map Char.toNat

/-- The five standard headers the worker adds first, in program order. -/
def stdHeaders (host postData : List Nat) : HeaderMap :=
  headerAdd
    (headerAdd
      (headerAdd
        (headerAdd
          (headerAdd [] (strBytes "Host") host)
          (strBytes "User-Agent") defaultUserAgent)
        (strBytes "Content-Length") (itoa postData.length))
      (strBytes "Content-Type") defaultContentType)
    (strBytes "Connection") (strBytes "Keep-Alive")

/-- The full outgoing header map: standard headers first, then the add-list
(`-h` flags) via `Add`, then the replace-list (`-H` flags) via `Set`. -/
def buildHeaders (host postData : List Nat) (adds replaces : List Header) : HeaderMap :=
  replaces.foldl (fun h a => headerSet h a.key a.value)
    (adds.foldl (fun h a => headerAdd h a.key a.value) (stdHeaders host postData))

/-- The last `-H` value given for canonical key `ck`, when any. -/
def lastValueFor (ck : List Nat) : List Header → Option (List Nat)
  | [] => none
  | a :: rs =>
    match lastValueFor ck rs with
    | some v => some v
    | none => if canonicalMIMEHeaderKey a.key = ck then some a.value else none

/-- All `-h` values given for canonical key `ck`, in flag order. -/
def addedValuesFor (ck : List Nat) : List Header → List (List Nat)
  | [] => []
  | a :: rs =>
    (if canonicalMIMEHeaderKey a.key = ck then [a.value] else []) ++ addedValuesFor ck rs

/-! ## The worker dequeue loop (worker, top of the `for` loop)

```
if ok {
    select {
    case job, ok = <-jobs:
        if !ok { continue loop }
    case job = <-retry:
    default:
        break loop
    }
} else {
    select {
    case job = <-retry:
    default:
        break loop
    }
}
```
Go `select` semantics: when at least one case is ready, one ready case is
chosen (nondeterministically); the `default` branch runs only when no case
is ready. A receive on the buffered `jobs` channel is ready when the buffer
is non-empty or the channel is closed (a closed, drained channel delivers
the zero value with `ok = false`); a receive on `retry` is ready when its
buffer is non-empty. -/

/-- State of one worker at the top of its loop, together with the channel
contents it observes. -/
structure WorkerSt where
  okFlag : Bool
  jobsBuf : List Job
  jobsClosed : Bool
  retryBuf : List Job
deriving DecidableEq, Repr

/-- What one pass through the dequeue `select` produces. -/
inductive DequeueOutcome where
  | attempt (j : Job) (s : WorkerSt)
  | loopAgain (s : WorkerSt)
  | terminate
deriving DecidableEq, Repr

/-- One execution of the dequeue `select`, as a relation (nondeterministic
choice among ready cases; `default` breaks the loop and the worker
terminates). -/
inductive DequeueStep : WorkerSt → DequeueOutcome → Prop where
  | recvJob (s : WorkerSt) (j : Job) (rest : List Job)
      (hok : s.okFlag = true) (hbuf : s.jobsBuf = j :: rest) :
      DequeueStep s (.attempt j { s with jobsBuf := rest })
  | recvClose (s : WorkerSt)
      (hok : s.okFlag = true) (hbuf : s.jobsBuf = []) (hcl : s.jobsClosed = true) :
      DequeueStep s (.loopAgain { s with okFlag := false })
  | recvRetry (s : WorkerSt) (j : Job) (rest : List Job)
      (hok : s.okFlag = true) (hbuf : s.retryBuf = j :: rest) :
      DequeueStep s (.attempt j { s with retryBuf := rest })
  | selDefault (s : WorkerSt)
      (hok : s.okFlag = true) (hbuf : s.jobsBuf = []) (hcl : s.jobsClosed = false)
      (hr : s.retryBuf = []) :
      DequeueStep s .terminate
  | recvRetryDone (s : WorkerSt) (j : Job) (rest : List Job)
      (hok : s.okFlag = false) (hbuf : s.retryBuf = j :: rest) :
      DequeueStep s (.attempt j { s with retryBuf := rest })
  | selDefaultDone (s : WorkerSt)
      (hok : s.okFlag = false) (hr : s.retryBuf = []) :
      DequeueStep s .terminate

/-- A worker observing an open, momentarily empty Attempt Queue and an empty
Retry Buffer (for example a worker scheduled right after spawn, before the
producer pushes its first pair). -/
def openEmptySt : WorkerSt :=
  { okFlag := true, jobsBuf := [], jobsClosed := false, retryBuf := [] }

/-! ## First-match-only shutdown (worker tail and `safeExit`)

```
m.Lock()
_, err = fmt.Fprintf(out, "%s:%s\n", job.user, job.pass)
m.Unlock()
...
if *firstOnly { safeExit() }

func safeExit() {
    m.Lock()
    err := out.Close()
    m.Unlock()
    if err != nil { log.Print(err) }
    os.Exit(0)
}
```
We embed the instant after two workers have both classified a success in
first-match-only mode: each still has to run the write and `safeExit`
sequence, and a scheduler interleaves their atomic actions. `os.Exit`
stops the whole process, so no action of any worker runs after it. -/

/-- The atomic actions of the success tail of a worker. -/
inductive WAct where
  | lock
  | writeLine
  | unlock
  | closeSink
  | exitZero
deriving DecidableEq, Repr

/-- The success tail in first-match-only mode: locked write of the pair,
then `safeExit` = locked close of the sink followed by `os.Exit(0)`. -/
def successScript : List WAct :=
  [.lock, .writeLine, .unlock, .lock, .closeSink, .unlock, .exitZero]

/-- Process state: the mutex `m`, the number of lines written to the result
sink, whether the sink is closed, the exit status once `os.Exit` ran, the
pairs still pending in the queues (untouched by this tail), and the
remaining action list of each worker. -/
structure SysSt where
  mutexHeldBy : Option Nat
  lines : Nat
  closed : Bool
  exited : Option Nat
  pendingPairs : Nat
  workers : List (List WAct)
deriving DecidableEq, Repr

/-- Scheduler step: a worker whose next action is enabled runs it, provided
the process has not exited. -/
inductive FMStep : SysSt → SysSt → Prop where
  | lock (s : SysSt) (i : Nat) (rest : List WAct)
      (hrun : s.exited = none) (hw : s.workers[i]? = some (.lock :: rest))
      (hm : s.mutexHeldBy = none) :
      FMStep s { s with mutexHeldBy := some i, workers := s.workers.set i rest }
  | writeLine (s : SysSt) (i : Nat) (rest : List WAct)
      (hrun : s.exited = none) (hw : s.workers[i]? = some (.writeLine :: rest))
      (hm : s.mutexHeldBy = some i) :
      FMStep s { s with lines := s.lines + 1, workers := s.workers.set i rest }
  | unlock (s : SysSt) (i : Nat) (rest : List WAct)
      (hrun : s.exited = none) (hw : s.workers[i]? = some (.unlock :: rest))
      (hm : s.mutexHeldBy = some i) :
      FMStep s { s with mutexHeldBy := none, workers := s.workers.set i rest }
  | closeSink (s : SysSt) (i : Nat) (rest : List WAct)
      (hrun : s.exited = none) (hw : s.workers[i]? = some (.closeSink :: rest))
      (hm : s.mutexHeldBy = some i) :
      FMStep s { s with closed := true, workers := s.workers.set i rest }
  | exitZero (s : SysSt) (i : Nat) (rest : List WAct)
      (hrun : s.exited = none) (hw : s.workers[i]? = some (.exitZero :: rest)) :
      FMStep s { s with exited := some 0, workers := s.workers.set i rest }

/-- Two workers have both classified a success; three pairs are still
pending; nothing is written or closed yet. -/
def fmInit : SysSt :=
  { mutexHeldBy := none, lines := 0, closed := false, exited := none,
    pendingPairs := 3, workers := [successScript, successScript] }

/-- Remainder of the success tail after `lock`. -/
def tailAfterLock : List WAct := [.writeLine, .unlock, .lock, .closeSink, .unlock, .exitZero]

/-- Remainder of the success tail after `lock, writeLine`. -/
def tailAfterWrite : List WAct := [.unlock, .lock, .closeSink, .unlock, .exitZero]

/-- Remainder of the success tail after `lock, writeLine, unlock`. -/
def tailAfterUnlock : List WAct := [.lock, .closeSink, .unlock, .exitZero]

/-- `fmInit` after worker 0 acquires the mutex. -/
def fmS1 : SysSt :=
  { fmInit with mutexHeldBy := some 0, workers := fmInit.workers.set 0 tailAfterLock }

/-- ... after worker 0 writes its success line. -/
def fmS2 : SysSt :=
  { fmS1 with lines := fmS1.lines + 1, workers := fmS1.workers.set 0 tailAfterWrite }

/-- ... after worker 0 releases the mutex (it has not yet entered `safeExit`). -/
def fmS3 : SysSt :=
  { fmS2 with mutexHeldBy := none, workers := fmS2.workers.set 0 tailAfterUnlock }

/-- ... after worker 1 acquires the mutex in turn. -/
def fmS4 : SysSt :=
  { fmS3 with mutexHeldBy := some 1, workers := fmS3.workers.set 1 tailAfterLock }

/-- ... after worker 1 writes a second success line; the process has still
not exited. -/
def fmTwoLines : SysSt :=
  { fmS4 with lines := fmS4.lines + 1, workers := fmS4.workers.set 1 tailAfterWrite }

/-! ## Startup validation (main)

```
flag.Parse()
if len(flag.Args()) != 3 { flag.Usage(); os.Exit(1) }
if *loginsStr != "" && *loginsFrom != "" { log.Fatal("both -l and -L are specified") }
if *passwordsStr != "" && *passwordsFrom != "" { log.Fatal("both -p and -P are specified") }
if *colonSeparatedFrom != "" && (...any of -l, -L, -p, -P...) {
    log.Fatal("both -C and one of ... are specified") }
if *colonSeparatedFrom == "" {
    if *loginsStr == "" && *loginsFrom == "" { log.Fatal("no logins are specified") }
    if *passwordsStr == "" && *passwordsFrom == "" { log.Fatal("no passwords are specified") }
}
```
`log.Fatal` prints its message to the diagnostic stream and calls
`os.Exit(1)`; it does not print the usage text. The usage text is printed
(followed by `os.Exit(1)`) only on a wrong positional-argument count.
Workers are spawned, and hence requests sent, only after all these checks
pass; the later URL/proxy checks are not needed by the claims and are
summarized by `.proceed`. -/

/-- The credential-related command line: positional-argument count and the
five credential flags (`[]` encodes an unset flag, Go `""`). -/
structure CLIFlags where
  argsCount : Nat
  loginsStr : List Nat
  loginsFrom : List Nat
  passwordsStr : List Nat
  passwordsFrom : List Nat
  colonSeparatedFrom : List Nat
deriving DecidableEq, Repr

/-- How startup ends: usage text plus exit 1, a `log.Fatal` message plus
exit 1 (no usage text), or validation passed (the attack proceeds and
requests may be sent). -/
inductive Startup where
  | usageExit1
  | fatalMsg (msg : List Nat)
  | proceed
deriving DecidableEq, Repr

/-- The check sequence of `main` up to and including the credential checks,
in program order. -/
def startupCheck (f : CLIFlags) : Startup :=
  if f.argsCount ≠ 3 then .usageExit1
  else if f.loginsStr ≠ [] ∧ f.loginsFrom ≠ [] then
    .fatalMsg (strBytes "both -l and -L are specified")
  else if f.passwordsStr ≠ [] ∧ f.passwordsFrom ≠ [] then
    .fatalMsg (strBytes "both -p and -P are specified")
  else if f.colonSeparatedFrom ≠ [] ∧
      (f.loginsStr ≠ [] ∨ f.loginsFrom ≠ [] ∨ f.passwordsStr ≠ [] ∨ f.passwordsFrom ≠ []) then
    .fatalMsg (strBytes "both -C and one of -l/-L/-p/-P are specified")
  else if f.colonSeparatedFrom = [] ∧ f.loginsStr = [] ∧ f.loginsFrom = [] then
    .fatalMsg (strBytes "no logins are specified")
  else if f.colonSeparatedFrom = [] ∧ f.passwordsStr = [] ∧ f.passwordsFrom = [] then
    .fatalMsg (strBytes "no passwords are specified")
  else .proceed

/-- Whether a startup outcome prints the usage text. -/
def printsUsageText : Startup → Bool
  | .usageExit1 => true
  | .fatalMsg _ => false
  | .proceed => false

/-- The process exit status of a startup outcome (`none`: the process keeps
running). -/
def startupExitStatus : Startup → Option Nat
  | .usageExit1 => some 1
  | .fatalMsg _ => some 1
  | .proceed => none

/-- Whether any HTTP request can ever be sent under this outcome (workers
are only spawned on `.proceed`). -/
def sendsAnyRequest : Startup → Bool
  | .proceed => true
  | _ => false

/-- A command line with both `-l` and `-L` given (and three positional
arguments). -/
def conflictFlags : CLIFlags :=
  { argsCount := 3, loginsStr := strBytes "admin", loginsFrom := strBytes "logins.txt",
    passwordsStr := [], passwordsFrom := [], colonSeparatedFrom := [] }

/-! ## Helper lemmas -/

theorem splitFirst_not_mem (sep : Nat) (s : List Nat) (h : sep ∉ s) :
    splitFirst sep s = (s, none) := by
  induction s with
  | nil => simp [splitFirst]
  | cons c rest ih =>
    have hc : ¬ c = sep := fun hcc => h (by simp [hcc])
    have hrest : sep ∉ rest := fun hm => h (List.mem_cons_of_mem _ hm)
    simp [splitFirst, hc, ih hrest]

theorem splitFirst_append (sep : Nat) (pre post : List Nat) (hpre : sep ∉ pre) :
    splitFirst sep (pre ++ sep :: post) = (pre, some post) := by
  induction pre with
  | nil => simp [splitFirst]
  | cons c rest ih =>
    have hc : ¬ c = sep := fun hcc => hpre (by simp [hcc])
    have hrest : sep ∉ rest := fun hm => hpre (List.mem_cons_of_mem _ hm)
    simp [splitFirst, hc, ih hrest]

theorem intercalate_consHead (new : List Nat) (c : Nat) (l : List (List Nat)) :
    List.intercalate new (consHead c l) = c :: List.intercalate new l := by
  cases l with
  | nil => simp [consHead, List.intercalate]
  | cons g gs => cases gs <;> simp [consHead, List.intercalate, List.intersperse]

theorem consHead_ne_nil (c : Nat) (l : List (List Nat)) : consHead c l ≠ [] := by
  cases l <;> simp [consHead]

theorem splitAll_ne_nil (old s : List Nat) : splitAll old s ≠ [] := by
  cases s with
  | nil => simp [splitAll]
  | cons c rest =>
    rw [splitAll]
    split
    · simp
    · exact consHead_ne_nil _ _

theorem intercalate_cons_nil (new : List Nat) (l : List (List Nat)) (h : l ≠ []) :
    List.intercalate new ([] :: l) = new ++ List.intercalate new l := by
  cases l with
  | nil => exact absurd rfl h
  | cons g gs => simp [List.intercalate, List.intersperse]

theorem replaceAll_eq_intercalate (old new : List Nat) : ∀ (n : Nat) (s : List Nat),
    s.length ≤ n → replaceAll old new s = List.intercalate new (splitAll old s) := by
  intro n
  induction n with
  | zero =>
    intro s hs
    have : s = [] := by cases s <;> simp_all
    subst this
    simp [replaceAll, splitAll, List.intercalate]
  | succ n ih =>
    intro s hs
    cases s with
    | nil => simp [replaceAll, splitAll, List.intercalate]
    | cons c rest =>
      rw [replaceAll, splitAll]
      by_cases hp : (old.isPrefixOf (c :: rest) && !old.isEmpty) = true
      · rw [if_pos hp, if_pos hp]
        rw [ih (rest.drop (old.length - 1)) (by simp at hs ⊢; omega)]
        rw [intercalate_cons_nil _ _ (splitAll_ne_nil _ _)]
      · rw [if_neg hp, if_neg hp]
        rw [ih rest (by simp at hs ⊢; omega)]
        rw [intercalate_consHead]

theorem headerGet_addRaw_self (k v : List Nat) (h : HeaderMap) :
    headerGet k (headerAddRaw k v h) = headerGet k h ++ [v] := by
  induction h with
  | nil => simp [headerGet, headerAddRaw]
  | cons e rest ih =>
    by_cases he : e.1 = k
    · simp [headerGet, headerAddRaw, he]
    · simp [headerGet, headerAddRaw, he, ih]

theorem headerGet_addRaw_other (k k2 v : List Nat) (h : HeaderMap) (hne : k2 ≠ k) :
    headerGet k2 (headerAddRaw k v h) = headerGet k2 h := by
  have hkn : ¬ k = k2 := fun hkk => hne hkk.symm
  induction h with
  | nil => simp [headerGet, headerAddRaw, hkn]
  | cons e rest ih =>
    by_cases he : e.1 = k
    · simp [headerGet, headerAddRaw, he, hkn]
    · simp only [headerAddRaw, if_neg he, headerGet]
      by_cases he2 : e.1 = k2 <;> simp [headerGet, he2, ih]

theorem headerGet_setRaw_self (k v : List Nat) (h : HeaderMap) :
    headerGet k (headerSetRaw k v h) = [v] := by
  induction h with
  | nil => simp [headerGet, headerSetRaw]
  | cons e rest ih =>
    by_cases he : e.1 = k
    · simp [headerGet, headerSetRaw, he]
    · simp [headerGet, headerSetRaw, he, ih]

theorem headerGet_setRaw_other (k k2 v : List Nat) (h : HeaderMap) (hne : k2 ≠ k) :
    headerGet k2 (headerSetRaw k v h) = headerGet k2 h := by
  have hkn : ¬ k = k2 := fun hkk => hne hkk.symm
  induction h with
  | nil => simp [headerGet, headerSetRaw, hkn]
  | cons e rest ih =>
    by_cases he : e.1 = k
    · simp [headerGet, headerSetRaw, he, hkn]
    · simp only [headerSetRaw, if_neg he, headerGet]
      by_cases he2 : e.1 = k2 <;> simp [headerGet, he2, ih]

theorem headerGet_foldl_add (ck : List Nat) (adds : List Header) :
    ∀ h0 : HeaderMap,
      headerGet ck (adds.foldl (fun h a => headerAdd h a.key a.value) h0) =
        headerGet ck h0 ++ addedValuesFor ck adds := by
  induction adds with
  | nil => intro h0; simp [addedValuesFor]
  | cons a rs ih =>
    intro h0
    simp only [List.foldl_cons, addedValuesFor]
    rw [ih]
    by_cases hk : canonicalMIMEHeaderKey a.key = ck
    · rw [if_pos hk]
      unfold headerAdd
      rw [hk, headerGet_addRaw_self, List.append_assoc]
    · rw [if_neg hk]
      unfold headerAdd
      rw [headerGet_addRaw_other _ _ _ _ (fun hkk => hk hkk.symm)]
      simp

theorem headerGet_foldl_set (ck : List Nat) (replaces : List Header) :
    ∀ h0 : HeaderMap,
      headerGet ck (replaces.foldl (fun h a => headerSet h a.key a.value) h0) =
        match lastValueFor ck replaces with
        | some v => [v]
        | none => headerGet ck h0 := by
  induction replaces with
  | nil => intro h0; simp [lastValueFor]
  | cons a rs ih =>
    intro h0
    simp only [List.foldl_cons, lastValueFor]
    rw [ih]
    cases hl : lastValueFor ck rs with
    | some v => simp
    | none =>
      simp only
      by_cases hk : canonicalMIMEHeaderKey a.key = ck
      · rw [if_pos hk]
        unfold headerSet
        rw [hk, headerGet_setRaw_self]
      · rw [if_neg hk]
        unfold headerSet
        rw [headerGet_setRaw_other _ _ _ _ (fun hkk => hk hkk.symm)]

theorem matrixPairs_length (L P : List (List Nat)) :
    (matrixPairs L P).length = L.length * P.length := by
  induction P with
  | nil => simp [matrixPairs]
  | cons p P ih =>
    simp only [matrixPairs, List.flatMap_cons] at ih ⊢
    simp only [List.length_append, List.length_map, ih, List.length_cons]
    ring

theorem matrixPairs_getElem (L P : List (List Nat)) (i j : Nat)
    (hi : i < P.length) (hj : j < L.length) :
    (matrixPairs L P)[i * L.length + j]? = some { user := L[j], pass := P[i] } := by
  induction P generalizing i with
  | nil => simp at hi
  | cons p P ih =>
    have hcons : matrixPairs L (p :: P) =
        L.map (fun user => { user := user, pass := p }) ++ matrixPairs L P := by
      simp [matrixPairs]
    rw [hcons]
    cases i with
    | zero =>
      rw [Nat.zero_mul, Nat.zero_add]
      rw [List.getElem?_append_left (by simpa using hj)]
      simp [hj]
    | succ i =>
      have harith : (i + 1) * L.length + j = L.length + (i * L.length + j) := by ring
      rw [harith, List.getElem?_append_right (by simp)]
      simp only [List.length_map, Nat.add_sub_cancel_left]
      have := ih i (by simpa using Nat.lt_of_succ_lt_succ hi)
      simpa using this

theorem fmStep1 : FMStep fmInit fmS1 :=
  FMStep.lock fmInit 0 tailAfterLock rfl rfl rfl

theorem fmStep2 : FMStep fmS1 fmS2 :=
  FMStep.writeLine fmS1 0 tailAfterWrite rfl rfl rfl

theorem fmStep3 : FMStep fmS2 fmS3 :=
  FMStep.unlock fmS2 0 tailAfterUnlock rfl rfl rfl

theorem fmStep4 : FMStep fmS3 fmS4 :=
  FMStep.lock fmS3 1 tailAfterLock rfl rfl rfl

theorem fmStep5 : FMStep fmS4 fmTwoLines :=
  FMStep.writeLine fmS4 1 tailAfterWrite rfl rfl rfl

/-! ## Claims -/

/-- Claim C1: for every response body, the success evaluator computes
`matched` (pattern match in regex mode, byte containment in literal mode,
per `matchedOf`), sets `failed = matched`, negates `failed` when the
inversion flag is set, and the `login:pass` line is written to the result
sink exactly when `failed` is false — that is, exactly when `matched`
equals the inversion flag. -/
theorem success_evaluator_write (cond : Cond) (inverted : Bool) (job : Job) (body : List Nat) :
    classifyWrite cond inverted job body =
      (if matchedOf cond body == inverted then
        some (job.user ++ [58] ++ job.pass ++ [10])
      else none) := by
  unfold classifyWrite
  cases h : matchedOf cond body <;> cases inverted <;> simp [h]

/-- Claim C2 (code divergence): a worker that finds the Attempt Queue open
but momentarily empty and the Retry Buffer empty does not block — the only
outcome the dequeue `select` admits in that state is the `default` branch,
which breaks the loop and terminates the worker while the queue is still
open. -/
theorem worker_terminates_on_momentarily_empty :
    DequeueStep openEmptySt .terminate ∧
    ∀ o, DequeueStep openEmptySt o → o = .terminate := by
  constructor
  · exact .selDefault _ rfl rfl rfl rfl
  · intro o h
    cases h <;> simp_all [openEmptySt]

/-- Witness for claim C2's theorem: the terminate outcome is derivable at
the open-and-empty state, and the uniqueness clause applies to it. -/
theorem worker_terminates_on_momentarily_empty_witness :
    DequeueStep openEmptySt .terminate ∧ DequeueOutcome.terminate = .terminate :=
  ⟨worker_terminates_on_momentarily_empty.1,
    worker_terminates_on_momentarily_empty.2 .terminate
      worker_terminates_on_momentarily_empty.1⟩

/-- Claim C3: matrix mode pushes exactly `|L| * |P|` pairs into the Attempt
Queue, and the pair at position `i * |L| + j` of the push order is
`(L[j], P[i])` — the password varies in the outer iteration, the login in
the inner one. -/
theorem matrix_mode_pairs (L P : List (List Nat)) (i j : Nat)
    (hi : i < P.length) (hj : j < L.length) :
    (matrixPairs L P).length = L.length * P.length ∧
    (matrixPairs L P)[i * L.length + j]? = some { user := L[j], pass := P[i] } :=
  ⟨matrixPairs_length L P, matrixPairs_getElem L P i j hi hj⟩

/-- Witness for claim C3's theorem at `L = [u1, u2]`, `P = [p1, p2]`,
`i = 1`, `j = 0`: four pairs, and position `1 * 2 + 0 = 2` holds
`(u1, p2)`. -/
theorem matrix_mode_pairs_witness :
    (matrixPairs [strBytes "u1", strBytes "u2"] [strBytes "p1", strBytes "p2"]).length = 2 * 2 ∧
    (matrixPairs [strBytes "u1", strBytes "u2"]
        [strBytes "p1", strBytes "p2"])[1 * 2 + 0]? =
      some { user := strBytes "u1", pass := strBytes "p2" } := by
  have := matrix_mode_pairs [strBytes "u1", strBytes "u2"] [strBytes "p1", strBytes "p2"]
    1 0 (by decide) (by decide)
  simpa using this

/-- Claim C4 counterexample: in first-match-only mode, after one worker has
written its success line, a second concurrently succeeding worker can still
write a second line before the first one reaches `os.Exit` — the state
`fmTwoLines`, holding two written lines with the process not yet exited, is
reachable from `fmInit`. "At most one line is ever written" is therefore
false of the code. -/
theorem two_success_lines_reachable :
    Relation.ReflTransGen FMStep fmInit fmTwoLines ∧
    fmTwoLines.lines = 2 ∧ fmTwoLines.exited = none := by
  refine ⟨?_, by decide, by decide⟩
  exact ((((Relation.ReflTransGen.single fmStep1).tail fmStep2).tail
    fmStep3).tail fmStep4).tail fmStep5

/-- Claim C4 (amended): in first-match-only mode no step of any worker runs
once the process has exited (in particular no further line is ever
written), the only exit status ever set is 0, the sink only becomes closed
while some worker holds the mutex, pending pairs are never consumed by this
shutdown path (the process exits with pairs still pending), and the success
tail of a worker writes exactly one line and ends with the process exit. -/
theorem first_match_shutdown (s s2 : SysSt) (h : FMStep s s2) :
    s.exited = none ∧
    (s2.exited ≠ s.exited → s2.exited = some 0) ∧
    (s2.closed = true → s.closed = true ∨ s.mutexHeldBy ≠ none) ∧
    s2.pendingPairs = s.pendingPairs ∧
    successScript.count WAct.writeLine = 1 ∧
    successScript.getLast? = some WAct.exitZero := by
  cases h <;> simp_all <;> decide

/-- Witness for claim C4's amended theorem, at the concrete step in which
worker 0 acquires the mutex from `fmInit`. -/
theorem first_match_shutdown_witness :
    fmInit.exited = none ∧
    (fmS1.exited ≠ fmInit.exited → fmS1.exited = some 0) ∧
    (fmS1.closed = true → fmInit.closed = true ∨ fmInit.mutexHeldBy ≠ none) ∧
    fmS1.pendingPairs = fmInit.pendingPairs ∧
    successScript.count WAct.writeLine = 1 ∧
    successScript.getLast? = some WAct.exitZero :=
  first_match_shutdown fmInit fmS1 fmStep1

/-- Claim C5: a connection error or a body-read error makes the worker log,
try a non-blocking enqueue of the pair into the retry buffer (appended when
the buffer is below capacity, silently dropped otherwise), write nothing,
and continue — it never exits and never surfaces the error. -/
theorem transient_error_handling (cap : Nat) (firstOnly : Bool) (cond : Cond)
    (inverted : Bool) (buf : List Job) (j : Job) (r : AttemptResult)
    (h : r = .connError ∨ r = .readError) :
    handleResult cap firstOnly cond inverted buf j r =
      { retryBuf := if buf.length < cap then buf ++ [j] else buf,
        written := none, logged := true, exits := false } := by
  rcases h with h | h <;> subst h <;> simp [handleResult, tryEnqueueRetry]

/-- Witness for claim C5's theorem: a connection error with a
single-capacity empty retry buffer enqueues the pair. -/
theorem transient_error_handling_witness :
    handleResult 1 false (.literal []) false [] { user := [97], pass := [98] } .connError =
      { retryBuf := [{ user := [97], pass := [98] }],
        written := none, logged := true, exits := false } := by
  have := transient_error_handling 1 false (.literal []) false []
    { user := [97], pass := [98] } .connError (Or.inl rfl)
  simpa using this

/-- Claim C6: the rendered request body is the template with every
(leftmost, non-overlapping) occurrence of `^USER^` replaced by the
URL-query-escaped login, and then every occurrence of `^PASS^` in the
result replaced by the URL-query-escaped password — stated through the
split-and-rejoin reading of replace-all. -/
theorem render_substitutes_placeholders (data user pass : List Nat) :
    renderPostData data user pass =
      List.intercalate (queryEscape pass)
        (splitAll passPlaceholder
          (List.intercalate (queryEscape user) (splitAll userPlaceholder data))) := by
  unfold renderPostData
  rw [replaceAll_eq_intercalate _ _ (replaceAll userPlaceholder (queryEscape user) data).length _ (Nat.le_refl _),
    replaceAll_eq_intercalate _ _ data.length _ (Nat.le_refl _)]

/-- Claim C7: on the outgoing request the value list of any (canonical) key
is: the single last `-H` value for that key when one exists (replace-list
overwrites, last one wins), and otherwise the standard-header values for
that key followed by every `-h` value for that key in flag order (add-list
accumulates). -/
theorem outgoing_header_semantics (host postData : List Nat)
    (adds replaces : List Header) (k : List Nat) :
    headerGet (canonicalMIMEHeaderKey k) (buildHeaders host postData adds replaces) =
      match lastValueFor (canonicalMIMEHeaderKey k) replaces with
      | some v => [v]
      | none =>
        headerGet (canonicalMIMEHeaderKey k) (stdHeaders host postData)
          ++ addedValuesFor (canonicalMIMEHeaderKey k) adds := by
  unfold buildHeaders
  rw [headerGet_foldl_set, headerGet_foldl_add]

/-- Claim C8: a combined-file line with no colon is skipped silently (no
pair, no error), and a line `pre ++ ":" ++ post` whose `pre` is colon-free
yields exactly the pair with login `pre` and password `post` — the
password may itself contain colons. -/
theorem combined_line_parsing (line : List Nat) :
    (58 ∉ line → parseCombinedLine line = none) ∧
    (∀ pre post, 58 ∉ pre → line = pre ++ 58 :: post →
      parseCombinedLine line = some { user := pre, pass := post }) := by
  constructor
  · intro h
    simp [parseCombinedLine, splitFirst_not_mem 58 line h]
  · intro pre post hpre hline
    subst hline
    simp [parseCombinedLine, splitFirst_append 58 pre post hpre]

/-- Witness for claim C8's theorem at the line `alice:p:q`: the login is
`alice` and the password `p:q` keeps its colon. -/
theorem combined_line_parsing_witness :
    parseCombinedLine (strBytes "alice:p:q") =
      some { user := strBytes "alice", pass := strBytes "p:q" } :=
  (combined_line_parsing (strBytes "alice:p:q")).2 (strBytes "alice") (strBytes "p:q")
    (by decide) (by decide)

/-- Claim C9 counterexample: with `-l` and `-L` both given, startup ends in
`log.Fatal` — the message goes to the diagnostic stream and the process
exits 1, but the usage text is NOT printed, contrary to the claim. -/
theorem conflicting_flags_print_no_usage :
    startupCheck conflictFlags = .fatalMsg (strBytes "both -l and -L are specified") ∧
    printsUsageText (startupCheck conflictFlags) = false ∧
    startupExitStatus (startupCheck conflictFlags) = some 1 := by
  refine ⟨by decide, by decide, by decide⟩

/-- Claim C9 (amended): every configuration with conflicting credential
flags, or with missing logins or passwords in matrix mode, makes startup
end in a `log.Fatal` — a message is printed to the diagnostic stream and
the process exits with status 1 before any request is sent (the usage text
is printed only on a wrong positional-argument count). -/
theorem credential_misconfig_fatal (f : CLIFlags) (hargs : f.argsCount = 3)
    (h : (f.loginsStr ≠ [] ∧ f.loginsFrom ≠ []) ∨
         (f.passwordsStr ≠ [] ∧ f.passwordsFrom ≠ []) ∨
         (f.colonSeparatedFrom ≠ [] ∧
           (f.loginsStr ≠ [] ∨ f.loginsFrom ≠ [] ∨
             f.passwordsStr ≠ [] ∨ f.passwordsFrom ≠ [])) ∨
         (f.colonSeparatedFrom = [] ∧
           ((f.loginsStr = [] ∧ f.loginsFrom = []) ∨
             (f.passwordsStr = [] ∧ f.passwordsFrom = [])))) :
    (∃ msg, startupCheck f = .fatalMsg msg) ∧
    startupExitStatus (startupCheck f) = some 1 ∧
    sendsAnyRequest (startupCheck f) = false := by
  have hout : ∃ msg, startupCheck f = .fatalMsg msg := by
    unfold startupCheck
    split_ifs with h0 h1 h2 h3 h4 h5
    · exact (h0 hargs).elim
    · exact ⟨_, rfl⟩
    · exact ⟨_, rfl⟩
    · exact ⟨_, rfl⟩
    · exact ⟨_, rfl⟩
    · exact ⟨_, rfl⟩
    · tauto
  obtain ⟨msg, hmsg⟩ := hout
  rw [hmsg]
  exact ⟨⟨msg, rfl⟩, rfl, rfl⟩

/-- Witness for claim C9's amended theorem at the `-l`/`-L` conflict. -/
theorem credential_misconfig_fatal_witness :
    (∃ msg, startupCheck conflictFlags = .fatalMsg msg) ∧
    startupExitStatus (startupCheck conflictFlags) = some 1 ∧
    sendsAnyRequest (startupCheck conflictFlags) = false :=
  credential_misconfig_fatal conflictFlags rfl
    (Or.inl ⟨by decide, by decide⟩)

/-- Claim C10: a `-h`/`-H` flag value without a colon is rejected with the
`invalid header` error; otherwise the value splits at the first colon into
a key and a value, the leading spaces of the value are dropped, and the
header is appended to the list. -/
theorem header_flag_parsing (hs : List Header) (val : List Nat) :
    (58 ∉ val → headersSetFlag hs val = .error (strBytes "invalid header: " ++ val)) ∧
    (∀ k v, 58 ∉ k → val = k ++ 58 :: v →
      headersSetFlag hs val =
        .ok (hs ++ [{ key := k, value := v.dropWhile (fun c => c == 32) }])) := by
  constructor
  · intro h
    have hc : ¬ (val.contains 58 = true) := by
      simp [List.contains, List.elem_eq_mem, h]
    unfold headersSetFlag
    rw [if_neg hc]
  · intro k v hk hval
    subst hval
    have hc : (k ++ 58 :: v).contains 58 = true := by
      simp [List.contains, List.elem_eq_mem]
    unfold headersSetFlag
    rw [if_pos hc, splitFirst_append 58 k v hk]
    rfl

/-- Witness for claim C10's theorem at `X-Key:  value:more`: key `X-Key`,
value `value:more` with its two leading spaces dropped and its inner colon
kept. -/
theorem header_flag_parsing_witness :
    headersSetFlag [] (strBytes "X-Key:  value:more") =
      .ok [{ key := strBytes "X-Key", value := strBytes "value:more" }] := by
  have := (header_flag_parsing [] (strBytes "X-Key:  value:more")).2
    (strBytes "X-Key") (strBytes "  value:more") (by decide) (by decide)
  simpa using this

end Hydra
